import Mathlib

/-!
Shallow embedding of the PaidSocialNav sync pipeline
(`paid_social_nav/core/sync.py`, `paid_social_nav/storage/bq.py`,
`paid_social_nav/adapters/base.py`, `paid_social_nav/adapters/meta/adapter.py`).

Calendar dates are modelled as `Nat` day ordinals (days since an arbitrary
epoch); Python `datetime.date` arithmetic on whole days maps to `Nat`
arithmetic.  Python floats carrying money/ratio metrics are modelled as `ℚ`.
-/

/-- `core/models.py`: frozen dataclass `DateRange(since, until)`, inclusive
calendar bounds, no validation in the constructor. -/
structure DateRange where
  since : Nat
  untl : Nat  -- the source field is named `until`, a Lean keyword
deriving DecidableEq, Repr

/-- `core/enums.py`: `Entity` enum. -/
inductive Entity where
  | account
  | campaign
  | adset
  | ad
  | creative
deriving DecidableEq, Repr

/-- `core/enums.py`: `DatePreset` enum. -/
inductive DatePreset where
  | today
  | yesterday
  | last3d
  | last7d
  | last14d
  | last28d
  | thisMonth
  | lastMonth
  | lifetime
deriving DecidableEq, Repr

/-! ## RangeChunker (`core/sync.py::_chunks`) -/

/-- Loop body of `_chunks` in `core/sync.py` (the `while cursor <= dr.untl`
loop).  Each iteration yields `DateRange(cursor, min(cursor + chunk_days - 1,
until))` and advances `cursor` past the yielded chunk.  The `fuel` argument
bounds the iteration count; `_chunks` supplies `total_days` which is shown
sufficient whenever `chunk_days >= 1` (for `chunk_days = 0` the Python loop
does not terminate). -/
def chunksGo (untilD chunkDays : Nat) : Nat → Nat → List DateRange
  | 0, _ => []
  | fuel + 1, cursor =>
    if cursor ≤ untilD then
      let e := min (cursor + chunkDays - 1) untilD
      ⟨cursor, e⟩ :: chunksGo untilD chunkDays fuel (e + 1)
    else []

/-- `core/sync.py::_chunks`: `total_days = (until - since).days + 1`; if
`total_days <= 60` the range is yielded unchanged, otherwise it is split into
chunks of at most `chunk_days` days. -/
def _chunks (dr : DateRange) (chunkDays : Nat) : List DateRange :=
  let totalDays := dr.untl + 1 - dr.since
  if totalDays ≤ 60 then [dr]
  else chunksGo dr.untl chunkDays totalDays dr.since

theorem chunksGo_nil (untilD chunkDays fuel cursor : Nat)
    (h : ¬ cursor ≤ untilD) :
    chunksGo untilD chunkDays fuel cursor = [] := by
  cases fuel with
  | zero => rfl
  | succ n => simp [chunksGo, h]

theorem chunksGo_cons (untilD chunkDays fuel cursor : Nat)
    (h : cursor ≤ untilD) :
    chunksGo untilD chunkDays (fuel + 1) cursor =
      ⟨cursor, min (cursor + chunkDays - 1) untilD⟩ ::
        chunksGo untilD chunkDays fuel (min (cursor + chunkDays - 1) untilD + 1) := by
  simp [chunksGo, h]

theorem chunksGo_spec (untilD C : Nat) (hC : 1 ≤ C) :
    ∀ fuel cursor, cursor ≤ untilD → untilD + 1 - cursor ≤ fuel →
      (chunksGo untilD C fuel cursor).length = (untilD + 1 - cursor + C - 1) / C ∧
      (∀ c ∈ chunksGo untilD C fuel cursor, c.since ≤ c.untl ∧ c.untl + 1 - c.since ≤ C) ∧
      (chunksGo untilD C fuel cursor).head?.map DateRange.since = some cursor ∧
      (chunksGo untilD C fuel cursor).getLast?.map DateRange.untl = some untilD ∧
      List.Chain' (fun a b => b.since = a.untl + 1) (chunksGo untilD C fuel cursor) ∧
      (∀ d, (cursor ≤ d ∧ d ≤ untilD) ↔
        ∃ c ∈ chunksGo untilD C fuel cursor, c.since ≤ d ∧ d ≤ c.untl) := by
  intro fuel
  induction fuel with
  | zero => intro cursor hcu hf; omega
  | succ n ih =>
    intro cursor hcu hf
    rw [chunksGo_cons untilD C n cursor hcu]
    by_cases hcase : untilD ≤ cursor + C - 1
    · have he : min (cursor + C - 1) untilD = untilD := by omega
      rw [he, chunksGo_nil untilD C n (untilD + 1) (by omega)]
      refine ⟨?_, ?_, rfl, rfl, List.chain'_singleton _, ?_⟩
      · simp only [List.length_singleton]
        symm
        exact Nat.div_eq_of_lt_le (by omega) (by omega)
      · intro c hc
        rw [List.mem_singleton] at hc
        subst hc
        exact ⟨hcu, (by omega : untilD + 1 - cursor ≤ C)⟩
      · intro d
        constructor
        · rintro ⟨h1, h2⟩
          exact ⟨⟨cursor, untilD⟩, List.mem_singleton_self _, h1, h2⟩
        · rintro ⟨c, hc, h1, h2⟩
          rw [List.mem_singleton] at hc
          subst hc
          exact ⟨h1, h2⟩
    · have he : min (cursor + C - 1) untilD = cursor + C - 1 := by omega
      rw [he]
      have hnext : cursor + C - 1 + 1 = cursor + C := by omega
      rw [hnext]
      obtain ⟨ihl, ihb, ihh, ihlast, ihchain, ihcov⟩ := ih (cursor + C) (by omega) (by omega)
      have hne : chunksGo untilD C n (cursor + C) ≠ [] := by
        intro hnil
        rw [hnil] at ihh
        simp at ihh
      refine ⟨?_, ?_, rfl, ?_, ?_, ?_⟩
      · simp only [List.length_cons, ihl]
        have h1 : untilD + 1 - cursor + C - 1 = (untilD + 1 - (cursor + C) + C - 1) + C := by
          omega
        rw [h1, Nat.add_div_right _ (by omega)]
      · intro c hc
        rcases List.mem_cons.mp hc with h | h
        · subst h
          exact ⟨(by omega : cursor ≤ cursor + C - 1),
            (by omega : cursor + C - 1 + 1 - cursor ≤ C)⟩
        · exact ihb c h
      · obtain ⟨y, l', hyl⟩ := List.exists_cons_of_ne_nil hne
        rw [hyl] at ihlast ⊢
        rw [List.getLast?_cons_cons]
        exact ihlast
      · obtain ⟨y, l', hyl⟩ := List.exists_cons_of_ne_nil hne
        have hy : y.since = cursor + C := by
          rw [hyl] at ihh
          simp only [List.head?_cons, Option.map_some'] at ihh
          exact Option.some.inj ihh
        rw [hyl] at ihchain ⊢
        exact List.Chain'.cons (by dsimp only; omega) ihchain
      · intro d
        constructor
        · rintro ⟨h1, h2⟩
          by_cases hd : d ≤ cursor + C - 1
          · exact ⟨⟨cursor, cursor + C - 1⟩, List.mem_cons_self _ _, h1, hd⟩
          · obtain ⟨c, hc, hcd⟩ := (ihcov d).mp ⟨by omega, h2⟩
            exact ⟨c, List.mem_cons_of_mem _ hc, hcd⟩
        · rintro ⟨c, hc, h1, h2⟩
          rcases List.mem_cons.mp hc with h | h
          · subst h
            dsimp only at h1 h2
            exact ⟨h1, by omega⟩
          · have hcov := (ihcov d).mpr ⟨c, h, h1, h2⟩
            exact ⟨by omega, hcov.2⟩

/-- C7: for every `DateRange` with inclusive span greater than 60 days and
every chunk size `C ≥ 1`, `_chunks` returns exactly `ceil(span/C)` chunks
(`(span + C - 1) / C` in natural division), each spanning at most `C` days,
starting at the input `since`, ending at the input `until`, consecutive with
no gaps and no overlaps (each next chunk starts the day after the previous one
ends), whose union of covered days equals the input range; for every range
with span at most 60 days, `_chunks` returns the input range unchanged as a
single chunk, regardless of `C`. -/
theorem C7_chunks_partition (dr : DateRange) (C : Nat) :
    (1 ≤ C → 60 < dr.untl + 1 - dr.since →
      (_chunks dr C).length = (dr.untl + 1 - dr.since + C - 1) / C ∧
      (∀ c ∈ _chunks dr C, c.since ≤ c.untl ∧ c.untl + 1 - c.since ≤ C) ∧
      (_chunks dr C).head?.map DateRange.since = some dr.since ∧
      (_chunks dr C).getLast?.map DateRange.untl = some dr.untl ∧
      List.Chain' (fun a b => b.since = a.untl + 1) (_chunks dr C) ∧
      (∀ d, (dr.since ≤ d ∧ d ≤ dr.untl) ↔
        ∃ c ∈ _chunks dr C, c.since ≤ d ∧ d ≤ c.untl)) ∧
    (dr.untl + 1 - dr.since ≤ 60 → _chunks dr C = [dr]) := by
  constructor
  · intro hC hspan
    have hns : ¬ dr.untl + 1 - dr.since ≤ 60 := by omega
    have heq : _chunks dr C = chunksGo dr.untl C (dr.untl + 1 - dr.since) dr.since := by
      simp only [_chunks, hns, if_false]
    rw [heq]
    exact chunksGo_spec dr.untl C hC (dr.untl + 1 - dr.since) dr.since (by omega) le_rfl
  · intro hspan
    simp only [_chunks, hspan, if_true]

/-- Witness for C7 at concrete inputs: a 90-day range with `chunk_days = 30`
splits into 3 chunks of the expected shape, and a 51-day range is returned
unchanged. -/
theorem C7_chunks_partition_witness :
    (_chunks ⟨0, 89⟩ 30).length = 3 ∧
    _chunks ⟨0, 89⟩ 30 = [⟨0, 29⟩, ⟨30, 59⟩, ⟨60, 89⟩] ∧
    _chunks ⟨0, 50⟩ 30 = [⟨0, 50⟩] := by
  refine ⟨?_, by decide, (C7_chunks_partition ⟨0, 50⟩ 30).2 (by decide)⟩
  have h := ((C7_chunks_partition ⟨0, 89⟩ 30).1 (by decide) (by decide)).1
  exact h.trans (by decide)

/-! ## IdempotentLoader (`storage/bq.py::load_json_rows`)

A destination or staging table is a `List Row`; a `Row` is the JSON row dict
assembled in `core/sync.py::_fetch_and_load` and loaded by
`storage/bq.py::load_json_rows` into the `fct_ad_insights_daily` schema of
`ensure_insights_table` (nullable STRING ids, INT64 counters, FLOAT64
metrics, JSON payload — the JSON payload is kept opaque as a `String`). -/
structure Row where
  date : Nat
  level : String
  account_global_id : Option String
  campaign_global_id : Option String
  adset_global_id : Option String
  ad_global_id : Option String
  impressions : Int
  clicks : Int
  spend : ℚ
  conversions : Option ℚ
  ctr : Option ℚ
  frequency : Option ℚ
  raw_metrics : String
deriving DecidableEq, Repr

/-- The `ON` clause of the MERGE statement in `load_json_rows`:
`(date, level, IFNULL(account_global_id,''), IFNULL(campaign_global_id,''),
IFNULL(adset_global_id,''), IFNULL(ad_global_id,''))` — a null id compares
equal to the empty string. -/
def natKey (r : Row) : Nat × String × String × String × String × String :=
  (r.date, r.level, r.account_global_id.getD "", r.campaign_global_id.getD "",
   r.adset_global_id.getD "", r.ad_global_id.getD "")

/-- The `WHEN MATCHED THEN UPDATE SET` clause: the target row keeps its key
columns and takes every metric column from the source row. -/
def updateMetrics (t s : Row) : Row :=
  { t with
    impressions := s.impressions
    clicks := s.clicks
    spend := s.spend
    conversions := s.conversions
    ctr := s.ctr
    frequency := s.frequency
    raw_metrics := s.raw_metrics }

/-- The metric columns listed in the `UPDATE SET` clause of the merge. -/
def metricsOf (r : Row) : Int × Int × ℚ × Option ℚ × Option ℚ × Option ℚ × String :=
  (r.impressions, r.clicks, r.spend, r.conversions, r.ctr, r.frequency, r.raw_metrics)

/-- BigQuery raises a runtime error when a `WHEN MATCHED THEN UPDATE` clause
pairs one target row with more than one source row; the merge in
`load_json_rows` hits this whenever the staging batch holds two rows with the
natural key of an existing destination row. -/
def mergeConflict (target source : List Row) : Bool :=
  target.any (fun t => 1 < source.countP (fun s => decide (natKey s = natKey t)))

/-- Action of the MERGE on one destination row: if some staging row matches
its natural key (`find?` picks the first; under pairwise-distinct staging keys
it is the only one), the metric columns are updated from it
(`WHEN MATCHED THEN UPDATE SET`), otherwise the row is kept as is. -/
def mergeOne (source : List Row) (t : Row) : Row :=
  match source.find? (fun s => decide (natKey s = natKey t)) with
  | some s => updateMetrics t s
  | none => t

/-- Result table of the MERGE statement in `load_json_rows` when it does not
error: every target row paired with a matching source row has its metric
columns updated from that source row, and every source row matching no target
row is inserted (`WHEN NOT MATCHED THEN INSERT ROW`). -/
def mergeTable (target source : List Row) : List Row :=
  target.map (mergeOne source)
  ++ source.filter (fun s => ¬ target.any (fun t => decide (natKey t = natKey s)))

/-- The MERGE statement of `load_json_rows`: errors on a multiply-matched
target row, otherwise produces `mergeTable`.  The statement is atomic: on
error the destination is unchanged. -/
def mergeRows (target source : List Row) : Except String (List Row) :=
  if mergeConflict target source then
    .error "MERGE: target row matched by more than one source row"
  else
    .ok (mergeTable target source)

/-- Failure modes of `load_json_rows` visible to its caller. -/
inductive LoadErr where
  | stageFailed
  | mergeFailed
deriving DecidableEq, Repr

instance {ε α : Type} [DecidableEq ε] [DecidableEq α] : DecidableEq (Except ε α) :=
  fun x y =>
    match x, y with
    | .ok a, .ok b =>
      if h : a = b then isTrue (by rw [h]) else isFalse (by simp [h])
    | .error a, .error b =>
      if h : a = b then isTrue (by rw [h]) else isFalse (by simp [h])
    | .ok _, .error _ => isFalse (by simp)
    | .error _, .ok _ => isFalse (by simp)

/-- Observable outcome of one `load_json_rows` call: the destination table
after the call, whether a staging table was created and dropped, whether the
MERGE statement was run, and the result returned or exception raised. -/
structure LoadOutcome where
  dest : List Row
  stagingCreated : Bool
  stagingDropped : Bool
  mergeRan : Bool
  result : Except LoadErr Unit
deriving Repr

/-- `storage/bq.py::load_json_rows`: returns immediately on an empty batch;
otherwise creates a uniquely-named staging table, bulk-loads the batch into it
(`stageLoadOk` models whether that load job succeeds), runs the MERGE against
the destination, and drops the staging table in a `finally` block on every
exit path. -/
def load_json_rows (dest rows : List Row) (stageLoadOk : Bool) : LoadOutcome :=
  match rows with
  | [] => ⟨dest, false, false, false, .ok ()⟩
  | _ :: _ =>
    if stageLoadOk then
      match mergeRows dest rows with
      | .ok newDest => ⟨newDest, true, true, true, .ok ()⟩
      | .error _ => ⟨dest, true, true, true, .error .mergeFailed⟩
    else
      ⟨dest, true, true, false, .error .stageFailed⟩

theorem natKey_updateMetrics (t s : Row) : natKey (updateMetrics t s) = natKey t := rfl

theorem metricsOf_updateMetrics (t s : Row) :
    metricsOf (updateMetrics t s) = metricsOf s := rfl

theorem updateMetrics_updateMetrics (t s : Row) :
    updateMetrics (updateMetrics t s) s = updateMetrics t s := rfl

theorem updateMetrics_self (s : Row) : updateMetrics s s = s := by
  cases s; rfl

theorem mergeOne_eq_update {source : List Row} {t s' : Row}
    (hf : source.find? (fun s => decide (natKey s = natKey t)) = some s') :
    mergeOne source t = updateMetrics t s' := by
  rw [mergeOne, hf]

theorem mergeOne_eq_self {source : List Row} {t : Row}
    (hf : source.find? (fun s => decide (natKey s = natKey t)) = none) :
    mergeOne source t = t := by
  rw [mergeOne, hf]

theorem natKey_mergeOne (source : List Row) (t : Row) :
    natKey (mergeOne source t) = natKey t := by
  rcases hf : source.find? (fun s => decide (natKey s = natKey t)) with _ | s'
  · rw [mergeOne_eq_self hf]
  · rw [mergeOne_eq_update hf, natKey_updateMetrics]

theorem countP_natKey_le_one (source : List Row)
    (hk : source.Pairwise (fun a b => natKey a ≠ natKey b))
    (k : Nat × String × String × String × String × String) :
    source.countP (fun s => decide (natKey s = k)) ≤ 1 := by
  induction source with
  | nil => simp
  | cons h t ih =>
    rw [List.pairwise_cons] at hk
    rw [List.countP_cons]
    by_cases hhk : natKey h = k
    · have hz : t.countP (fun s => decide (natKey s = k)) = 0 := by
        rw [List.countP_eq_zero]
        intro s hs
        simp only [decide_eq_true_eq]
        intro hsk
        exact hk.1 s hs (by rw [hhk, ← hsk])
      simp [hz, hhk]
    · simp only [hhk, decide_False, if_false, Nat.add_zero]
      exact ih hk.2

theorem find?_natKey_self (source : List Row)
    (hk : source.Pairwise (fun a b => natKey a ≠ natKey b))
    {s : Row} (hs : s ∈ source) :
    source.find? (fun x => decide (natKey x = natKey s)) = some s := by
  induction source with
  | nil => cases hs
  | cons h t ih =>
    rw [List.pairwise_cons] at hk
    rcases List.mem_cons.mp hs with rfl | hmem
    · exact List.find?_cons_of_pos _ (by simp)
    · rw [List.find?_cons_of_neg _ (by simp [hk.1 s hmem])]
      exact ih hk.2 hmem

theorem natKey_inj_of_pairwise (source : List Row)
    (hk : source.Pairwise (fun a b => natKey a ≠ natKey b)) :
    ∀ {a b : Row}, a ∈ source → b ∈ source → natKey a = natKey b → a = b := by
  induction source with
  | nil => intro a b ha; cases ha
  | cons h t ih =>
    rw [List.pairwise_cons] at hk
    intro a b ha hb hab
    rcases List.mem_cons.mp ha with ha' | ha'
    · rcases List.mem_cons.mp hb with hb' | hb'
      · rw [ha', hb']
      · exact absurd (by rw [← ha']; exact hab) (hk.1 b hb')
    · rcases List.mem_cons.mp hb with hb' | hb'
      · exact absurd (by rw [← hb']; exact hab.symm) (hk.1 a ha')
      · exact ih hk.2 ha' hb' hab

theorem mergeConflict_eq_false (target source : List Row)
    (hk : source.Pairwise (fun a b => natKey a ≠ natKey b)) :
    mergeConflict target source = false := by
  rw [mergeConflict, List.any_eq_false]
  intro t _
  simp only [decide_eq_true_eq, not_lt]
  exact countP_natKey_le_one source hk (natKey t)

theorem mergeRows_ok (target source : List Row)
    (hk : source.Pairwise (fun a b => natKey a ≠ natKey b)) :
    mergeRows target source = .ok (mergeTable target source) := by
  rw [mergeRows, mergeConflict_eq_false target source hk]
  rfl

/-- Every row of the merged table that carries the natural key of a batch row
carries that batch row metric values. -/
theorem mergeTable_metrics (target source : List Row)
    (hk : source.Pairwise (fun a b => natKey a ≠ natKey b)) :
    ∀ t ∈ mergeTable target source, ∀ s ∈ source,
      natKey t = natKey s → metricsOf t = metricsOf s := by
  intro r hr s hs hkey
  rw [mergeTable, List.mem_append] at hr
  rcases hr with hr | hr
  · obtain ⟨t, _, hft⟩ := List.mem_map.mp hr
    rcases hf : source.find? (fun x => decide (natKey x = natKey t)) with _ | s'
    · rw [mergeOne_eq_self hf] at hft
      rw [← hft] at hkey
      rw [List.find?_eq_none] at hf
      exact absurd (by simpa using hkey.symm) (hf s hs)
    · rw [mergeOne_eq_update hf] at hft
      have hs' : s' ∈ source := List.mem_of_find?_eq_some hf
      have hks' : natKey s' = natKey t := by simpa using List.find?_some hf
      have hss : s' = s := by
        refine natKey_inj_of_pairwise source hk hs' hs ?_
        rw [hks', ← natKey_updateMetrics t s', hft]
        exact hkey
      rw [← hft, metricsOf_updateMetrics, hss]
  · have hrs : r ∈ source := List.mem_of_mem_filter hr
    have h1 := find?_natKey_self source hk hrs
    have h2 := find?_natKey_self source hk hs
    rw [hkey] at h1
    rw [h1] at h2
    rw [Option.some.inj h2]

/-- After a merge, every batch row natural key is present in the
destination. -/
theorem mergeTable_key_mem (target source : List Row) :
    ∀ s ∈ source, ∃ t ∈ mergeTable target source, natKey t = natKey s := by
  intro s hs
  by_cases hb : target.any (fun t => decide (natKey t = natKey s)) = true
  · obtain ⟨t0, ht0, hkt0⟩ := List.any_eq_true.mp hb
    rw [decide_eq_true_eq] at hkt0
    refine ⟨mergeOne source t0, ?_, ?_⟩
    · rw [mergeTable, List.mem_append]
      exact Or.inl (List.mem_map_of_mem _ ht0)
    · rw [natKey_mergeOne]
      exact hkt0
  · refine ⟨s, ?_, rfl⟩
    rw [mergeTable, List.mem_append]
    refine Or.inr (List.mem_filter.mpr ⟨hs, ?_⟩)
    simpa using hb

/-- Re-merging the identical batch with pairwise-distinct natural keys leaves
the merged table unchanged. -/
theorem mergeTable_idem (target source : List Row)
    (hk : source.Pairwise (fun a b => natKey a ≠ natKey b)) :
    mergeTable (mergeTable target source) source = mergeTable target source := by
  conv_lhs => rw [mergeTable]
  have hfilter :
      source.filter
        (fun s => ¬ (mergeTable target source).any (fun t => decide (natKey t = natKey s)))
        = [] := by
    rw [List.filter_eq_nil_iff]
    intro s hs
    obtain ⟨t, ht, hkey⟩ := mergeTable_key_mem target source s hs
    have hany : (mergeTable target source).any (fun t => decide (natKey t = natKey s))
        = true :=
      List.any_eq_true.mpr ⟨t, ht, by simp [hkey]⟩
    simp [hany]
  rw [hfilter, List.append_nil]
  have hmap : ∀ r ∈ mergeTable target source, mergeOne source r = r := by
    intro r hr
    rw [mergeTable, List.mem_append] at hr
    rcases hr with hr | hr
    · obtain ⟨t, _, hft⟩ := List.mem_map.mp hr
      rcases hf : source.find? (fun x => decide (natKey x = natKey t)) with _ | s'
      · rw [mergeOne_eq_self hf] at hft
        rw [← hft]
        exact mergeOne_eq_self hf
      · rw [mergeOne_eq_update hf] at hft
        have hfr : source.find? (fun s => decide (natKey s = natKey r)) = some s' := by
          rw [show (fun s => decide (natKey s = natKey r)) =
                (fun s => decide (natKey s = natKey t)) from by
              funext x
              rw [← hft, natKey_updateMetrics]]
          exact hf
        rw [mergeOne_eq_update hfr, ← hft, updateMetrics_updateMetrics]
    · have hrs : r ∈ source := List.mem_of_mem_filter hr
      rw [mergeOne_eq_update (find?_natKey_self source hk hrs), updateMetrics_self]
  calc List.map (mergeOne source) (mergeTable target source)
      = List.map id (mergeTable target source) := List.map_congr_left hmap
    _ = mergeTable target source := List.map_id _

theorem load_json_rows_ok (dest rows : List Row) (hne : rows ≠ [])
    (hk : rows.Pairwise (fun a b => natKey a ≠ natKey b)) :
    load_json_rows dest rows true = ⟨mergeTable dest rows, true, true, true, .ok ()⟩ := by
  cases rows with
  | nil => exact absurd rfl hne
  | cons r rs =>
    simp only [load_json_rows, if_true, mergeRows_ok _ _ hk]

/-- A sample destination row (level `ad`, one ad id, null campaign/adset ids). -/
def r0 : Row :=
  { date := 0
    level := "ad"
    account_global_id := some "meta:account:act_1"
    campaign_global_id := none
    adset_global_id := none
    ad_global_id := some "meta:ad:1"
    impressions := 100
    clicks := 5
    spend := 1
    conversions := none
    ctr := none
    frequency := none
    raw_metrics := "" }

/-- C1 (amended): for every batch whose rows have pairwise-distinct natural
keys, loading the identical batch twice via `load_json_rows` succeeds and
leaves the destination table in the same state as loading it once — the
second load changes nothing (in particular no row count change), and every
metric column of a row matched by a batch row equals the value from the
latest load. -/
theorem C1_load_twice_converges (dest rows : List Row)
    (hk : rows.Pairwise (fun a b => natKey a ≠ natKey b)) :
    (load_json_rows dest rows true).result = .ok () ∧
    (load_json_rows (load_json_rows dest rows true).dest rows true).result = .ok () ∧
    (load_json_rows (load_json_rows dest rows true).dest rows true).dest =
      (load_json_rows dest rows true).dest ∧
    (load_json_rows (load_json_rows dest rows true).dest rows true).dest.length =
      (load_json_rows dest rows true).dest.length ∧
    ∀ t ∈ (load_json_rows dest rows true).dest, ∀ s ∈ rows,
      natKey t = natKey s → metricsOf t = metricsOf s := by
  by_cases hne : rows = []
  · subst hne
    simp [load_json_rows]
  · rw [load_json_rows_ok dest rows hne hk]
    dsimp only
    rw [load_json_rows_ok (mergeTable dest rows) rows hne hk]
    dsimp only
    exact ⟨rfl, rfl, mergeTable_idem dest rows hk,
      by rw [mergeTable_idem dest rows hk], mergeTable_metrics dest rows hk⟩

/-- Counterexample to C1 as stated: the claim quantifies over every batch,
but a batch holding the same natural key twice (which the sync pipeline can
produce, see the retry accumulation used for C2) breaks it — the first load
inserts both copies, and re-loading the now-duplicated batch makes the MERGE
statement fail (one destination row matched by two staging rows), so the
second load raises instead of succeeding. -/
theorem C1_counterexample :
    (load_json_rows [] [r0, r0] true).result = .ok () ∧
    (load_json_rows [] [r0, r0] true).dest = [r0, r0] ∧
    (load_json_rows (load_json_rows [] [r0, r0] true).dest [r0, r0] true).result =
      .error .mergeFailed := by
  refine ⟨rfl, rfl, ?_⟩
  rfl

/-- Witness for C1 (amended) at a concrete input: a singleton batch has
pairwise-distinct keys; loading it twice converges. -/
theorem C1_load_twice_converges_witness :
    (load_json_rows [] [r0] true).result = .ok () ∧
    (load_json_rows (load_json_rows [] [r0] true).dest [r0] true).dest =
      (load_json_rows [] [r0] true).dest := by
  have h := C1_load_twice_converges [] [r0] (by simp)
  exact ⟨h.1, h.2.2.1⟩

/-- C5: if the bulk load into the staging table fails, the destination table
is unchanged, the MERGE statement never runs on that code path, and the error
propagates to the caller (so the whole fetch-stage-merge unit is what gets
re-attempted); the staging table is still dropped by the cleanup block. -/
theorem C5_stage_failure_frame (dest rows : List Row) (hne : rows ≠ []) :
    (load_json_rows dest rows false).dest = dest ∧
    (load_json_rows dest rows false).mergeRan = false ∧
    (load_json_rows dest rows false).result = .error .stageFailed ∧
    (load_json_rows dest rows false).stagingDropped = true := by
  cases rows with
  | nil => exact absurd rfl hne
  | cons r rs => exact ⟨rfl, rfl, rfl, rfl⟩

/-- Witness for C5 at a concrete input. -/
theorem C5_stage_failure_frame_witness :
    (load_json_rows [r0] [r0] false).dest = [r0] ∧
    (load_json_rows [r0] [r0] false).result = .error .stageFailed := by
  have h := C5_stage_failure_frame [r0] [r0] (by simp)
  exact ⟨h.1, h.2.2.1⟩

/-- C10: calling `load_json_rows` with an empty rows list is a no-op — it
returns immediately without creating (or dropping) a staging table, without
running a merge, and without touching the destination table. -/
theorem C10_empty_rows_noop (dest : List Row) (stageLoadOk : Bool) :
    load_json_rows dest [] stageLoadOk = ⟨dest, false, false, false, .ok ()⟩ := rfl

/-! ## RetryOrchestrator (`core/sync.py::_fetch_and_load`, per-chunk loop)

The `while True` loop around one fetch-and-load unit.  `unit k` returns the
rows the k-th attempt appends to the `rows` buffer before it either completes
(`none`) or raises (`some errorMessage`); the buffer is NOT cleared between
attempts (`rows.clear()` runs only after a successful load), so rows appended
by a failed attempt are still in the batch the successful attempt loads.
`budget` is the number of retries still allowed (`attempt > retries` raises),
`k` is the 1-based attempt counter. -/
def chunkAttemptLoop (unit : Nat → List Row × Option String) :
    Nat → Nat → List Row → Except String (List Row) × Nat
  | budget, k, buffer =>
    match (unit k).2 with
    | none => (.ok (buffer ++ (unit k).1), k)
    | some e =>
      match budget with
      | 0 => (.error e, k)
      | b + 1 => chunkAttemptLoop unit b (k + 1) (buffer ++ (unit k).1)

/-- One chunk of `_fetch_and_load` with retry budget `retries`: the loop
starts with attempt 1, an empty buffer, and `retries` retries remaining.
Returns the batch handed to `load_json_rows` (or the propagated last error)
and the number of attempts made. -/
def _fetch_and_load_chunk (unit : Nat → List Row × Option String) (retries : Nat) :
    Except String (List Row) × Nat :=
  chunkAttemptLoop unit retries 1 []

theorem chunkAttemptLoop_success {unit : Nat → List Row × Option String}
    {k : Nat} (h : (unit k).2 = none) (budget : Nat) (buffer : List Row) :
    chunkAttemptLoop unit budget k buffer = (.ok (buffer ++ (unit k).1), k) := by
  rw [chunkAttemptLoop, h]

theorem chunkAttemptLoop_fail_last {unit : Nat → List Row × Option String}
    {k : Nat} {e : String} (h : (unit k).2 = some e) (buffer : List Row) :
    chunkAttemptLoop unit 0 k buffer = (.error e, k) := by
  rw [chunkAttemptLoop, h]

theorem chunkAttemptLoop_fail_step {unit : Nat → List Row × Option String}
    {k : Nat} {e : String} (h : (unit k).2 = some e) (b : Nat) (buffer : List Row) :
    chunkAttemptLoop unit (b + 1) k buffer =
      chunkAttemptLoop unit b (k + 1) (buffer ++ (unit k).1) := by
  rw [chunkAttemptLoop, h]

theorem chunkAttemptLoop_attempts_le (unit : Nat → List Row × Option String) :
    ∀ budget k buffer, (chunkAttemptLoop unit budget k buffer).2 ≤ k + budget := by
  intro budget
  induction budget with
  | zero =>
    intro k buffer
    rcases h : (unit k).2 with _ | e
    · rw [chunkAttemptLoop_success h]
      omega
    · rw [chunkAttemptLoop_fail_last h]
      omega
  | succ b ih =>
    intro k buffer
    rcases h : (unit k).2 with _ | e
    · rw [chunkAttemptLoop_success h]
      omega
    · rw [chunkAttemptLoop_fail_step h]
      have := ih (k + 1) (buffer ++ (unit k).1)
      omega

theorem chunkAttemptLoop_all_fail (unit : Nat → List Row × Option String)
    (errOf : Nat → String) :
    ∀ budget k buffer,
      (∀ j, k ≤ j → j ≤ k + budget → (unit j).2 = some (errOf j)) →
      chunkAttemptLoop unit budget k buffer = (.error (errOf (k + budget)), k + budget) := by
  intro budget
  induction budget with
  | zero =>
    intro k buffer h
    rw [chunkAttemptLoop_fail_last (h k le_rfl (by omega))]
    simp
  | succ b ih =>
    intro k buffer h
    rw [chunkAttemptLoop_fail_step (h k le_rfl (by omega))]
    rw [ih (k + 1) (buffer ++ (unit k).1) (fun j h1 h2 => h j (by omega) (by omega))]
    have harith : k + 1 + b = k + (b + 1) := by omega
    rw [harith]

/-- The batch a successful attempt `k` hands to the loader: everything the
attempts `start..start+n-1` appended to the shared `rows` buffer. -/
def attemptRows (unit : Nat → List Row × Option String) (start n : Nat) : List Row :=
  ((List.range' start n).map (fun j => (unit j).1)).flatten

theorem chunkAttemptLoop_first_success (unit : Nat → List Row × Option String) :
    ∀ budget k buffer k', k ≤ k' → k' ≤ k + budget → (unit k').2 = none →
      (∀ j, k ≤ j → j < k' → ∃ e, (unit j).2 = some e) →
      chunkAttemptLoop unit budget k buffer =
        (.ok (buffer ++ attemptRows unit k (k' - k + 1)), k') := by
  intro budget
  induction budget with
  | zero =>
    intro k buffer k' hk1 hk2 hnone _
    have hkk : k' = k := by omega
    subst hkk
    rw [chunkAttemptLoop_success hnone]
    simp [attemptRows, List.range'_succ]
  | succ b ih =>
    intro k buffer k' hk1 hk2 hnone hfail
    by_cases hkk : k' = k
    · subst hkk
      rw [chunkAttemptLoop_success hnone]
      simp [attemptRows, List.range'_succ]
    · obtain ⟨e, he⟩ := hfail k le_rfl (by omega)
      rw [chunkAttemptLoop_fail_step he]
      rw [ih (k + 1) (buffer ++ (unit k).1) k' (by omega) (by omega) hnone
        (fun j h1 h2 => hfail j (by omega) h2)]
      have hn : k' - k + 1 = (k' - (k + 1) + 1) + 1 := by omega
      rw [hn]
      simp only [attemptRows, List.range'_succ, List.map_cons, List.flatten_cons,
        List.append_assoc]

/-- C3: for every configured retries value `r`, the fetch-and-load unit for
one chunk is attempted at most `r + 1` times; if every attempt fails, exactly
`r + 1` attempts are made and the last error propagates; if the unit first
succeeds on attempt `k ≤ r + 1`, exactly `k` attempts are made and the result
is success (carrying the rows buffered across all `k` attempts). -/
theorem C3_retry_semantics (unit : Nat → List Row × Option String) (retries : Nat) :
    ((_fetch_and_load_chunk unit retries).2 ≤ retries + 1) ∧
    (∀ errOf : Nat → String,
      (∀ j, 1 ≤ j → j ≤ retries + 1 → (unit j).2 = some (errOf j)) →
      _fetch_and_load_chunk unit retries = (.error (errOf (retries + 1)), retries + 1)) ∧
    (∀ k, 1 ≤ k → k ≤ retries + 1 → (unit k).2 = none →
      (∀ j, 1 ≤ j → j < k → ∃ e, (unit j).2 = some e) →
      _fetch_and_load_chunk unit retries = (.ok (attemptRows unit 1 k), k)) := by
  refine ⟨?_, ?_, ?_⟩
  · have h := chunkAttemptLoop_attempts_le unit retries 1 []
    rw [_fetch_and_load_chunk]
    omega
  · intro errOf h
    rw [_fetch_and_load_chunk,
      chunkAttemptLoop_all_fail unit errOf retries 1 [] (fun j h1 h2 => h j h1 (by omega))]
    have harith : 1 + retries = retries + 1 := by omega
    rw [harith]
  · intro k h1 h2 hnone hfail
    rw [_fetch_and_load_chunk,
      chunkAttemptLoop_first_success unit retries 1 [] k h1 (by omega) hnone hfail]
    have harith : k - 1 + 1 = k := by omega
    rw [harith, List.nil_append]

/-- A fetch stub that fails on its first two invocations and succeeds from
the third on, yielding no rows. -/
def stubFailTwice : Nat → List Row × Option String :=
  fun k => ([], if k ≤ 2 then some "transient" else none)

/-- A fetch stub that always fails. -/
def stubAlwaysFail : Nat → List Row × Option String :=
  fun _ => ([], some "boom")

/-- Witness for C3 at the inputs named by the spec: `retries = 3` with a stub
failing twice then succeeding makes exactly 3 invocations and succeeds;
`retries = 2` with an always-failing stub raises the last error after exactly
3 attempts. -/
theorem C3_retry_semantics_witness :
    _fetch_and_load_chunk stubFailTwice 3 = (.ok [], 3) ∧
    _fetch_and_load_chunk stubAlwaysFail 2 = (.error "boom", 3) := by
  refine ⟨?_, (C3_retry_semantics stubAlwaysFail 2).2.1 (fun _ => "boom") (fun j _ _ => rfl)⟩
  have h := (C3_retry_semantics stubFailTwice 3).2.2 3 (by omega) (by omega)
    (by norm_num [stubFailTwice])
    (fun j hj1 hj2 => ⟨"transient", by simp [stubFailTwice, show j ≤ 2 by omega]⟩)
  rw [h]
  rfl

/-- A fetch for one chunk that yields the row `r0`, raises, and on the retry
yields `r0` again and completes — the shape of any transient mid-fetch (or
load) failure followed by a successful re-fetch of the same data. -/
def dupFetch : Nat → List Row × Option String :=
  fun k => if k = 1 then ([r0], some "transient mid-fetch failure") else ([r0], none)

/-- C2 fails on the code: `_fetch_and_load` never clears the `rows` buffer
before a retry, so the batch assembled across the two attempts of `dupFetch`
is `[r0, r0]`; merging it into an empty destination inserts both copies
(`WHEN NOT MATCHED THEN INSERT ROW` fires per staging row), leaving two
destination rows with the same natural key. -/
theorem C2_retry_duplicates_key :
    _fetch_and_load_chunk dupFetch 3 = (.ok [r0, r0], 2) ∧
    (load_json_rows [] [r0, r0] true).result = .ok () ∧
    (load_json_rows [] [r0, r0] true).dest.countP
      (fun r => decide (natKey r = natKey r0)) = 2 := by
  exact ⟨rfl, rfl, rfl⟩

/-! ## LevelFallbackCascade (`core/sync.py::sync_meta_insights`, level loop) -/

/-- `core/sync.py`: `FALLBACK_ORDER = [Entity.AD, Entity.ADSET, Entity.CAMPAIGN]`. -/
def FALLBACK_ORDER : List Entity := [.ad, .adset, .campaign]

/-- The `while True` level loop at the bottom of `sync_meta_insights`:
append the current level to `tried_levels`, run `_fetch_and_load`
(abstracted as `rowsOf`, the rows loaded at a level), add to the total, stop
when fallback is disabled or rows were loaded, otherwise advance to the next
entry of `FALLBACK_ORDER` (or stop when the order is exhausted or the level
is not in it).  `fuel` bounds the iterations; the index into the concrete
3-element order strictly increases, so `sync_levels` supplies enough. -/
def fallbackGo (rowsOf : Entity → Nat) (fallback : Bool) :
    Nat → Entity → List Entity → Nat → List Entity × Nat
  | 0, _, tried, total => (tried, total)
  | fuel + 1, cur, tried, total =>
    let tried2 := tried ++ [cur]
    let n := rowsOf cur
    let total2 := total + n
    if ¬ fallback ∨ 0 < n then (tried2, total2)
    else
      let nextIndex :=
        if cur ∈ FALLBACK_ORDER then FALLBACK_ORDER.indexOf cur + 1
        else FALLBACK_ORDER.length
      if FALLBACK_ORDER.length ≤ nextIndex then (tried2, total2)
      else fallbackGo rowsOf fallback fuel (FALLBACK_ORDER.getD nextIndex .ad) tried2 total2

/-- The single-level entry point of the cascade: start at the requested
level with empty `tried_levels` and zero total. -/
def sync_levels (rowsOf : Entity → Nat) (fallback : Bool) (level : Entity) :
    List Entity × Nat :=
  fallbackGo rowsOf fallback (FALLBACK_ORDER.length + 1) level [] 0

theorem memOrd_ad : Entity.ad ∈ FALLBACK_ORDER := by decide

theorem memOrd_adset : Entity.adset ∈ FALLBACK_ORDER := by decide

theorem memOrd_campaign : Entity.campaign ∈ FALLBACK_ORDER := by decide

theorem idxOrd_ad : List.indexOf Entity.ad FALLBACK_ORDER = 0 := rfl

theorem idxOrd_adset : List.indexOf Entity.adset FALLBACK_ORDER = 1 := rfl

theorem idxOrd_campaign : List.indexOf Entity.campaign FALLBACK_ORDER = 2 := rfl

theorem ordLen : FALLBACK_ORDER.length = 3 := rfl

theorem ordGetD1 : FALLBACK_ORDER.getD 1 Entity.ad = Entity.adset := rfl

theorem ordGetD2 : FALLBACK_ORDER.getD 2 Entity.ad = Entity.campaign := rfl

theorem ordGetE1 : FALLBACK_ORDER[1]?.getD Entity.ad = Entity.adset := rfl

theorem ordGetE2 : FALLBACK_ORDER[2]?.getD Entity.ad = Entity.campaign := rfl

theorem ordGetL1 : FALLBACK_ORDER[1] = Entity.adset := rfl

theorem ordGetL2 : FALLBACK_ORDER[2] = Entity.campaign := rfl

/-- C4: when a single level is requested, the cascade stops immediately when
fallback is disabled or the level loads rows; with fallback enabled it
advances from `ad` to `adset` and from `adset` to `campaign` exactly when the
current level loads zero rows, and stops at `campaign` (order exhausted); in
particular, if `ad` yields 0 rows and `adset` yields 5, the run reports 5
rows having attempted exactly the two levels `[ad, adset]`. -/
theorem C4_level_fallback (rowsOf : Entity → Nat) (level : Entity) :
    (sync_levels rowsOf false level = ([level], rowsOf level)) ∧
    (level ∈ FALLBACK_ORDER → 0 < rowsOf level →
      sync_levels rowsOf true level = ([level], rowsOf level)) ∧
    (rowsOf .ad = 0 →
      sync_levels rowsOf true .ad =
        (.ad :: (sync_levels rowsOf true .adset).1, (sync_levels rowsOf true .adset).2)) ∧
    (rowsOf .adset = 0 →
      sync_levels rowsOf true .adset =
        (.adset :: (sync_levels rowsOf true .campaign).1,
          (sync_levels rowsOf true .campaign).2)) ∧
    (rowsOf .campaign = 0 → sync_levels rowsOf true .campaign = ([.campaign], 0)) ∧
    (rowsOf .ad = 0 → rowsOf .adset = 5 →
      sync_levels rowsOf true .ad = ([.ad, .adset], 5)) := by
  refine ⟨?_, ?_, ?_, ?_, ?_, ?_⟩
  · simp [sync_levels, fallbackGo]
  · intro _ hpos
    simp [sync_levels, fallbackGo, hpos]
  · intro h0
    rcases Nat.eq_zero_or_pos (rowsOf .adset) with h1 | h1
    · rcases Nat.eq_zero_or_pos (rowsOf .campaign) with h2 | h2
      · simp [sync_levels, fallbackGo, h0, h1, h2, memOrd_ad, memOrd_adset,
          memOrd_campaign, idxOrd_ad, idxOrd_adset, idxOrd_campaign, ordLen, ordGetD1, ordGetD2, ordGetE1, ordGetE2, ordGetL1, ordGetL2]
      · simp [sync_levels, fallbackGo, h0, h1, h2, memOrd_ad, memOrd_adset,
          memOrd_campaign, idxOrd_ad, idxOrd_adset, idxOrd_campaign, ordLen, ordGetD1, ordGetD2, ordGetE1, ordGetE2, ordGetL1, ordGetL2]
    · simp [sync_levels, fallbackGo, h0, h1, memOrd_ad, idxOrd_ad,
        ordLen, ordGetD1, ordGetD2, ordGetE1, ordGetE2, ordGetL1, ordGetL2]
  · intro h0
    rcases Nat.eq_zero_or_pos (rowsOf .campaign) with h2 | h2
    · simp [sync_levels, fallbackGo, h0, h2, memOrd_adset, memOrd_campaign, idxOrd_adset, idxOrd_campaign,
        ordLen, ordGetD1, ordGetD2, ordGetE1, ordGetE2, ordGetL1, ordGetL2]
    · simp [sync_levels, fallbackGo, h0, h2, memOrd_adset, idxOrd_adset,
        ordLen, ordGetD1, ordGetD2, ordGetE1, ordGetE2, ordGetL1, ordGetL2]
  · intro h0
    simp [sync_levels, fallbackGo, h0, memOrd_campaign, idxOrd_campaign,
      ordLen, ordGetD1, ordGetD2, ordGetE1, ordGetE2, ordGetL1, ordGetL2]
  · intro h0 h5
    simp [sync_levels, fallbackGo, h0, h5, memOrd_ad, memOrd_adset, idxOrd_ad, idxOrd_adset,
      ordLen, ordGetD1, ordGetD2, ordGetE1, ordGetE2, ordGetL1, ordGetL2]

/-- Loaded-rows stub for the C4 witness: level `ad` yields 0 rows, `adset`
yields 5, everything else 0. -/
def rowsStub : Entity → Nat :=
  fun e => match e with
  | .adset => 5
  | _ => 0

/-- Witness for C4 at the concrete stub: the cascade tries exactly the two
levels `[ad, adset]` and reports 5 rows; with fallback disabled it stops
after `ad` alone. -/
theorem C4_level_fallback_witness :
    sync_levels rowsStub true .ad = ([.ad, .adset], 5) ∧
    sync_levels rowsStub false .ad = ([.ad], 0) := by
  exact ⟨(C4_level_fallback rowsStub .ad).2.2.2.2.2 rfl rfl,
    (C4_level_fallback rowsStub .ad).1⟩

/-! ## PaginatedFetcher row normalization
(`adapters/base.py::BaseAdapter._safe_int/_safe_float`,
`adapters/meta/adapter.py::MetaAdapter.fetch_insights`, per-row body)

Upstream JSON scalar values are modelled by `JVal` (string or number);
`Option JVal` is the result of `row.get(field)`, with `none` for an absent
key or a JSON null.  `parseIntString`/`parseFloatString` model the plain
decimal forms accepted by Python `int()`/`float()` (optional surrounding
whitespace, optional sign, digits, one optional decimal point; exponent and
special forms are out of scope). -/
inductive JVal where
  | str (s : String)
  | num (q : ℚ)
deriving DecidableEq, Repr

def digitsVal? (l : List Char) : Option Nat :=
  if l ≠ [] ∧ l.all (·.isDigit) then
    some (l.foldl (fun a c => a * 10 + (c.toNat - 48)) 0)
  else none

def digitsOrEmptyVal? (l : List Char) : Option Nat :=
  if l.all (·.isDigit) then
    some (l.foldl (fun a c => a * 10 + (c.toNat - 48)) 0)
  else none

/-- Surrounding-whitespace strip applied by Python numeric parsing. -/
def trimChars (l : List Char) : List Char :=
  ((l.dropWhile (·.isWhitespace)).reverse.dropWhile (·.isWhitespace)).reverse

/-- Python `int(s)` on a string. -/
def parseIntString (s : String) : Option Int :=
  match trimChars s.toList with
  | '+' :: rest => (digitsVal? rest).map (fun n => (n : Int))
  | '-' :: rest => (digitsVal? rest).map (fun n => -(n : Int))
  | l => (digitsVal? l).map (fun n => (n : Int))

/-- Python `float(s)` on a string (plain decimal forms). -/
def parseFloatString (s : String) : Option ℚ :=
  let t := trimChars s.toList
  let sign : ℚ := match t with
    | '-' :: _ => -1
    | _ => 1
  let body : List Char := match t with
    | '+' :: rest => rest
    | '-' :: rest => rest
    | rest => rest
  match body.splitOn '.' with
  | [ip] => (digitsVal? ip).map (fun n => sign * n)
  | [ip, fp] =>
    if ip = [] ∧ fp = [] then none
    else
      match digitsOrEmptyVal? ip, digitsOrEmptyVal? fp with
      | some n, some m => some (sign * ((n : ℚ) + (m : ℚ) / (10 : ℚ) ^ fp.length))
      | _, _ => none
  | _ => none

/-- Python `int(value)`: `None` raises `TypeError` (`none`), a number
truncates toward zero, a string parses or raises `ValueError`. -/
def pyInt (value : Option JVal) : Option Int :=
  match value with
  | none => none
  | some (.num q) => some (if 0 ≤ q then ⌊q⌋ else ⌈q⌉)
  | some (.str s) => parseIntString s

/-- Python `float(value)`: `None` raises `TypeError` (`none`), a number is
returned, a string parses or raises `ValueError`. -/
def pyFloat (value : Option JVal) : Option ℚ :=
  match value with
  | none => none
  | some (.num q) => some q
  | some (.str s) => parseFloatString s

/-- `adapters/base.py::BaseAdapter._safe_int`: convert, returning the default
(0 at every call site) when `int(value)` raises. -/
def _safe_int (value : Option JVal) (default : Int := 0) : Int :=
  (pyInt value).getD default

/-- `adapters/base.py::BaseAdapter._safe_float`: convert, returning the
default (`None` at every call site) when `float(value)` raises. -/
def _safe_float (value : Option JVal) (default : Option ℚ := none) : Option ℚ :=
  match pyFloat value with
  | some q => some q
  | none => default

/-- Python truthiness of a `row.get(...)` result: `None`, `""` and `0` are
falsy. -/
def falsy (value : Option JVal) : Bool :=
  match value with
  | none => true
  | some (.str s) => s = ""
  | some (.num q) => q = 0

/-- `row.get("spend") or 0.0` in `fetch_insights`: a falsy raw spend is
replaced by the float `0.0` before the bare `float(...)` call. -/
def spendBase (value : Option JVal) : JVal :=
  if falsy value then .num 0 else value.getD (.num 0)

/-- The conversions proxy in `fetch_insights`: `actions` (or `[]` when
falsy), summed over the float-parseable `value` entries when the list is
nonempty, else `None`; unparseable entries are skipped. -/
def convOf (acts : Option (List (Option JVal))) : Option ℚ :=
  match acts with
  | none => none
  | some [] => none
  | some l =>
    some (l.foldl (fun acc v =>
      match pyFloat v with
      | some q => acc + q
      | none => acc) 0)

/-- The fields of one upstream insights page row that the per-row
normalization reads.  `date_start` is modelled post-`fromisoformat` (the
`try`/`except` around the date parse collapses to an `Option`); `actions`
holds the `a.get("value")` entries. -/
structure RawRow where
  date_start : Option Nat
  impressions : Option JVal
  clicks : Option JVal
  spend : Option JVal
  ctr : Option JVal
  frequency : Option JVal
  actions : Option (List (Option JVal))
deriving DecidableEq, Repr

/-- `adapters/base.py::InsightRecord` (the opaque `raw` payload omitted). -/
structure InsightRecord where
  date : Nat
  level : String
  impressions : Int
  clicks : Int
  spend : ℚ
  conversions : Option ℚ
  ctr : Option ℚ
  frequency : Option ℚ
deriving DecidableEq, Repr

/-- Per-row body of `MetaAdapter.fetch_insights`: builds the yielded
`InsightRecord`.  `impressions`/`clicks` go through `_safe_int` (default 0),
`ctr`/`frequency` through `_safe_float` (default `None`), but `spend` is a
bare `float(row.get("spend") or 0.0)` — when that raises, the exception
escapes the generator and the whole page fails. -/
def normalizeRow (level : String) (today : Nat) (row : RawRow) :
    Except String InsightRecord :=
  match pyFloat (some (spendBase row.spend)) with
  | none => .error "could not convert string to float"
  | some sp =>
    .ok
      { date := row.date_start.getD today
        level := level
        impressions := _safe_int row.impressions
        clicks := _safe_int row.clicks
        spend := sp
        conversions := convOf row.actions
        ctr := _safe_float row.ctr
        frequency := _safe_float row.frequency }

/-- C6 (amended): whenever the raw spend value is falsy or parseable (the
only cases in which the bare `float(...)` call does not raise), the fetcher
yields a record for the row, and each safely-parsed numeric field degrades to
its default when absent or unparseable: `impressions`/`clicks` to 0,
`ctr`/`frequency` to null; an absent spend becomes 0.0 (not null).  An
unparseable non-falsy spend instead fails the whole page (see the
counterexample). -/
theorem C6_numeric_degrade (level : String) (today : Nat) (row : RawRow)
    (hsp : (pyFloat (some (spendBase row.spend))).isSome) :
    ∃ rec, normalizeRow level today row = .ok rec ∧
      (pyInt row.impressions = none → rec.impressions = 0) ∧
      (pyInt row.clicks = none → rec.clicks = 0) ∧
      (pyFloat row.ctr = none → rec.ctr = none) ∧
      (pyFloat row.frequency = none → rec.frequency = none) ∧
      (row.spend = none → rec.spend = 0) := by
  rcases h : pyFloat (some (spendBase row.spend)) with _ | sp
  · rw [h] at hsp
    simp at hsp
  · refine ⟨⟨row.date_start.getD today, level, _safe_int row.impressions,
      _safe_int row.clicks, sp, convOf row.actions, _safe_float row.ctr,
      _safe_float row.frequency⟩, ?_, ?_, ?_, ?_, ?_, ?_⟩
    · rw [normalizeRow, h]
    · intro hi
      simp [_safe_int, hi]
    · intro hc
      simp [_safe_int, hc]
    · intro h1
      simp [_safe_float, h1]
    · intro h2
      simp [_safe_float, h2]
    · intro hnone
      have hb : spendBase row.spend = .num 0 := by rw [hnone]; rfl
      rw [hb] at h
      have hsp0 : (0 : ℚ) = sp := by
        simpa [pyFloat] using h
      exact hsp0.symm

/-- Counterexample to C6 as stated: a row whose `spend` is the unparseable
string `"abc"` does not degrade to a default — the bare
`float(row.get("spend") or 0.0)` raises `ValueError`, the generator aborts,
and no record is yielded for the row (the whole page fails), while the claim
says every decimal field becomes null and a record is still yielded. -/
def rowBadSpend : RawRow :=
  { date_start := some 10
    impressions := some (.num 100)
    clicks := some (.num 5)
    spend := some (.str "abc")
    ctr := some (.num 1)
    frequency := none
    actions := none }

theorem C6_counterexample :
    normalizeRow "ad" 0 rowBadSpend = .error "could not convert string to float" := by
  decide

/-- A page row with every numeric field absent. -/
def rowAllMissing : RawRow :=
  { date_start := none
    impressions := none
    clicks := none
    spend := none
    ctr := none
    frequency := none
    actions := none }

/-- Witness for C6 (amended) at a concrete row with every field absent:
a record is yielded with `impressions = clicks = 0`, `ctr = frequency =
null`, and `spend = 0`. -/
theorem C6_numeric_degrade_witness :
    normalizeRow "ad" 7 rowAllMissing = .ok ⟨7, "ad", 0, 0, 0, none, none, none⟩ := by
  obtain ⟨rec, h1, h2, h3, h4, h5, h6⟩ := C6_numeric_degrade "ad" 7 rowAllMissing rfl
  have hrec : rec = ⟨7, "ad", 0, 0, 0, none, none, none⟩ := by
    have hok : Except.ok (ε := String) rec = .ok ⟨7, "ad", 0, 0, 0, none, none, none⟩ :=
      h1.symm.trans rfl
    exact Except.ok.inj hok
  rw [← hrec]
  exact h1

/-! ## DateRangeResolver (`core/sync.py::_resolve_dates`) and validation
fail-fast (`core/sync.py::sync_meta_insights`, lines before any work) -/

/-- `core/sync.py`: frozen dataclass `_ResolvedDates(date_range, date_preset)`. -/
structure _ResolvedDates where
  date_range : Option DateRange
  date_preset : Option DatePreset
deriving DecidableEq, Repr

/-- `core/sync.py::_resolve_dates`.  `since`/`untl` model the CLI strings
post-`date.fromisoformat` (`none` = not supplied / falsy); the preset table
`_preset_to_range` is abstracted as a parameter (`none` models the lifetime
and adapter-native presets that have no concrete range) together with the
computed `yesterday` used for the default branch.  Explicit dates dominate a
supplied preset; an incomplete since/until pair raises `ValueError` before
anything else happens. -/
def _resolve_dates (presetToRange : DatePreset → Option (Nat × Nat)) (yesterday : Nat)
    (date_preset : Option DatePreset) (since untl : Option Nat) :
    Except String _ResolvedDates :=
  if since.isSome ∨ untl.isSome then
    match since, untl with
    | some s, some u => .ok ⟨some ⟨s, u⟩, none⟩
    | _, _ => .error "Both --since and --until must be provided if not using --date-preset"
  else
    match date_preset with
    | some p =>
      match presetToRange p with
      | none => .ok ⟨none, some p⟩
      | some (s, u) => .ok ⟨some ⟨s, u⟩, none⟩
    | none => .ok ⟨some ⟨yesterday, yesterday⟩, none⟩

/-- Network/warehouse side effects of `sync_meta_insights`, in source
order. -/
inductive SyncEffect where
  | ensureDataset
  | ensureInsightsTable
  | ensureDimAdTable
  | fetchLoad
deriving DecidableEq, Repr

/-- The prefix of `sync_meta_insights` up to and including date resolution:
`_resolve_dates` runs before `ensure_dataset` / `ensure_insights_table` /
`ensure_dim_ad_table` and before any `_fetch_and_load` call (`rest`
abstracts everything after the ensures, retry loop included).  A `ValueError`
from `_resolve_dates` propagates immediately: no effect is performed and
nothing is retried. -/
def sync_meta_insights_start (presetToRange : DatePreset → Option (Nat × Nat))
    (yesterday : Nat) (date_preset : Option DatePreset) (since untl : Option Nat)
    (rest : _ResolvedDates → List SyncEffect × Except String Nat) :
    List SyncEffect × Except String Nat :=
  match _resolve_dates presetToRange yesterday date_preset since untl with
  | .error e => ([], .error e)
  | .ok resolved =>
    ((SyncEffect.ensureDataset :: SyncEffect.ensureInsightsTable ::
        SyncEffect.ensureDimAdTable :: (rest resolved).1), (rest resolved).2)

/-- C8: when exactly one of `since`/`until` is supplied, the sync fails with
the validation error before any network request or warehouse operation (the
effect trace is empty, for every possible continuation), and the failure is
never retried — the retry loop lives inside the continuation, which is never
entered. -/
theorem C8_incomplete_bounds_fail_fast
    (presetToRange : DatePreset → Option (Nat × Nat)) (yesterday : Nat)
    (date_preset : Option DatePreset) (since untl : Option Nat)
    (rest : _ResolvedDates → List SyncEffect × Except String Nat)
    (h : (since.isSome ∧ untl = none) ∨ (since = none ∧ untl.isSome)) :
    (sync_meta_insights_start presetToRange yesterday date_preset since untl rest).1
        = [] ∧
    (sync_meta_insights_start presetToRange yesterday date_preset since untl rest).2
        = .error "Both --since and --until must be provided if not using --date-preset" := by
  rcases h with ⟨h1, h2⟩ | ⟨h1, h2⟩
  · rcases since with _ | sv
    · simp at h1
    · subst h2
      exact ⟨rfl, rfl⟩
  · rcases untl with _ | uv
    · simp at h2
    · subst h1
      exact ⟨rfl, rfl⟩

/-- Witness for C8 at a concrete input: `since` supplied, `until` absent. -/
theorem C8_incomplete_bounds_fail_fast_witness :
    (sync_meta_insights_start (fun _ => none) 0 none (some 5) none
        (fun _ => ([SyncEffect.fetchLoad], .ok 0))).1 = [] ∧
    (sync_meta_insights_start (fun _ => none) 0 none (some 5) none
        (fun _ => ([SyncEffect.fetchLoad], .ok 0))).2
      = .error "Both --since and --until must be provided if not using --date-preset" :=
  C8_incomplete_bounds_fail_fast (fun _ => none) 0 none (some 5) none
    (fun _ => ([SyncEffect.fetchLoad], .ok 0)) (Or.inl ⟨rfl, rfl⟩)

/-! ## RateLimiter (`core/sync.py::_fetch_and_load._maybe_sleep`)

Time is modelled as `ℚ` seconds on an idealized clock that advances only by
explicit sleeps (requests and processing take zero time; arbitrary
non-negative inter-chunk delays are threaded in explicitly).  The limiter
state is the closure-captured `last_time`. -/

/-- `core/sync.py::_maybe_sleep`: returns the seconds slept and the updated
`last_time`.  A non-positive `min_interval` returns immediately without
touching the state; the first gated call records `now` and does not sleep;
later calls sleep the remaining fraction of `min_interval` and record the
post-sleep time. -/
def _maybe_sleep (minInterval : ℚ) (lastTime : Option ℚ) (now : ℚ) : ℚ × Option ℚ :=
  if minInterval ≤ 0 then (0, lastTime)
  else
    match lastTime with
    | none => (0, some now)
    | some t =>
      let elapsed := now - t
      let s := if elapsed < minInterval then minInterval - elapsed else 0
      (s, some (now + s))

/-- `min_interval = 1.0 / rate_limit_rps if rate_limit_rps and
rate_limit_rps > 0 else 0.0`. -/
def min_interval (rps : ℚ) : ℚ :=
  if 0 < rps then 1 / rps else 0

/-- One chunk attempt as the limiter sees it: the gated request time, the
seconds slept at the gate, and the number of paginated requests the fetch
then issues back-to-back (gated only once — `_maybe_sleep` runs once per
chunk attempt, before `fetch_insights`, whose pagination loop calls
`requests.get` per page with no further gating). -/
structure ChunkStep where
  req : ℚ
  slept : ℚ
  pages : Nat
deriving Repr

/-- The chunk loop of `_fetch_and_load` as a timed trace: each chunk carries
a non-negative pre-chunk delay `d` (fetch/load/backoff time of everything
since the previous gate) and a page count `p`. -/
def chunkSteps (minInterval : ℚ) : List (ℚ × Nat) → Option ℚ → ℚ → List ChunkStep
  | [], _, _ => []
  | (d, p) :: rest, lastTime, now =>
    let now1 := now + d
    let step := _maybe_sleep minInterval lastTime now1
    let req := now1 + step.1
    ⟨req, step.1, p⟩ :: chunkSteps minInterval rest step.2 req

/-- The timestamps of every outbound request of one sync invocation:
each chunk's gated request followed by its remaining pagination requests,
all at the gated time (zero network latency — nothing blocks between
pages). -/
def syncRequestTimes (rps : ℚ) (chunks : List (ℚ × Nat)) : List ℚ :=
  ((chunkSteps (min_interval rps) chunks none 0).map
    (fun st => List.replicate st.pages st.req)).flatten

/-- Counterexample to C9 as stated: with `rps = 1` and a single chunk whose
fetch paginates twice, the second page request is issued immediately after
the first (the limiter gates only the start of each chunk attempt, not each
outbound request), so consecutive requests are 0 seconds apart where the
claim requires at least `1/rps = 1` second. -/
theorem C9_counterexample :
    syncRequestTimes 1 [(0, 2)] = [0, 0] ∧
    ¬ List.Chain' (fun a b => 1 / (1 : ℚ) ≤ b - a) (syncRequestTimes 1 [(0, 2)]) := by
  have heval : syncRequestTimes 1 [(0, 2)] = [0, 0] := by
    norm_num [syncRequestTimes, chunkSteps, _maybe_sleep, min_interval, List.replicate]
  refine ⟨heval, ?_⟩
  intro h
  rw [heval] at h
  rcases List.chain'_cons.mp h with ⟨hle, -⟩
  norm_num at hle

theorem chunkSteps_gated_chain (m : ℚ) (hm : 0 < m) :
    ∀ (chunks : List (ℚ × Nat)) (t now : ℚ), (∀ c ∈ chunks, 0 ≤ c.1) → t ≤ now →
      List.Chain' (fun a b => m ≤ b - a)
        ((chunkSteps m chunks (some t) now).map ChunkStep.req) ∧
      (∀ x ∈ ((chunkSteps m chunks (some t) now).map ChunkStep.req).head?,
        t + m ≤ x) := by
  intro chunks
  induction chunks with
  | nil =>
    intro t now _ _
    exact ⟨List.chain'_nil, by simp [chunkSteps]⟩
  | cons c rest ih =>
    intro t now hd htn
    obtain ⟨d, p⟩ := c
    have hd0 : 0 ≤ d := hd (d, p) (List.mem_cons_self _ _)
    have hrest : ∀ x ∈ rest, 0 ≤ x.1 := fun x hx => hd x (List.mem_cons_of_mem _ hx)
    rw [chunkSteps]
    have hns : ¬ m ≤ 0 := by linarith
    simp only [_maybe_sleep, hns, if_false]
    by_cases hel : now + d - t < m
    · simp only [hel, if_true]
      have hreq : now + d + (m - (now + d - t)) = t + m := by ring
      rw [hreq]
      obtain ⟨ihc, ihh⟩ := ih (t + m) (t + m) hrest le_rfl
      refine ⟨?_, ?_⟩
      · rw [List.map_cons]
        refine List.chain'_cons'.mpr ⟨?_, ihc⟩
        intro y hy
        have hb := ihh y hy
        try dsimp only
        all_goals linarith
      · intro x hx
        rw [List.map_cons, List.head?_cons] at hx
        simp only [Option.mem_def, Option.some.injEq] at hx
        rw [← hx]
    · simp only [hel, if_false]
      have hreq : now + d + 0 = now + d := by ring
      rw [hreq]
      obtain ⟨ihc, ihh⟩ := ih (now + d) (now + d) hrest le_rfl
      have hfar : t + m ≤ now + d := by linarith
      refine ⟨?_, ?_⟩
      · rw [List.map_cons]
        refine List.chain'_cons'.mpr ⟨?_, ihc⟩
        intro y hy
        have hb := ihh y hy
        try dsimp only
        all_goals linarith
      · intro x hx
        rw [List.map_cons, List.head?_cons] at hx
        simp only [Option.mem_def, Option.some.injEq] at hx
        rw [← hx]
        try dsimp only
        all_goals linarith

theorem chunkSteps_no_sleep :
    ∀ (chunks : List (ℚ × Nat)) (lastTime : Option ℚ) (now : ℚ),
      ∀ st ∈ chunkSteps 0 chunks lastTime now, st.slept = 0 := by
  intro chunks
  induction chunks with
  | nil => intro lastTime now st hst; cases hst
  | cons c rest ih =>
    intro lastTime now st hst
    obtain ⟨d, p⟩ := c
    rw [chunkSteps] at hst
    simp only [_maybe_sleep, le_refl, if_true] at hst
    rcases List.mem_cons.mp hst with h | h
    · rw [h]
    · exact ih lastTime (now + d + 0) st h

/-- C9 (amended): with a positive `requests_per_second`, the limiter gates
only the first request of each chunk attempt — before that gated request it
blocks until at least `1/rps` seconds have elapsed since the previous gated
request of the same invocation (consecutive gated request times are at least
`1/rps` apart, for any non-negative inter-chunk delays); pagination requests
within one fetch are not throttled (see the counterexample).  A
`requests_per_second` of 0 disables throttling entirely: the limiter never
sleeps. -/
theorem C9_rate_limit_gated (rps : ℚ) (chunks : List (ℚ × Nat)) :
    (0 < rps → (∀ c ∈ chunks, 0 ≤ c.1) →
      List.Chain' (fun a b => 1 / rps ≤ b - a)
        ((chunkSteps (min_interval rps) chunks none 0).map ChunkStep.req)) ∧
    (rps = 0 →
      ∀ st ∈ chunkSteps (min_interval rps) chunks none 0, st.slept = 0) := by
  constructor
  · intro hrps hd
    have hmi : min_interval rps = 1 / rps := by
      rw [min_interval, if_pos hrps]
    have hm : 0 < 1 / rps := by positivity
    rw [hmi]
    cases chunks with
    | nil => exact List.chain'_nil
    | cons c rest =>
      obtain ⟨d, p⟩ := c
      have hrest : ∀ x ∈ rest, 0 ≤ x.1 := fun x hx => hd x (List.mem_cons_of_mem _ hx)
      rw [chunkSteps]
      have hns : ¬ (1 / rps) ≤ 0 := by linarith
      simp only [_maybe_sleep, hns, if_false]
      obtain ⟨ihc, ihh⟩ :=
        chunkSteps_gated_chain (1 / rps) hm rest (0 + d) (0 + d + 0) hrest (by linarith)
      rw [List.map_cons]
      refine List.chain'_cons'.mpr ⟨?_, ihc⟩
      intro y hy
      have hb := ihh y hy
      try dsimp only
      all_goals linarith
  · intro h0
    have hmi : min_interval rps = 0 := by
      rw [h0, min_interval]
      norm_num
    rw [hmi]
    exact chunkSteps_no_sleep chunks none 0

/-- Witness for C9 (amended) at concrete inputs: with `rps = 2` two
back-to-back chunks are gated half a second apart, and with `rps = 0` the
limiter never sleeps. -/
theorem C9_rate_limit_gated_witness :
    List.Chain' (fun a b => 1 / (2 : ℚ) ≤ b - a)
      ((chunkSteps (min_interval 2) [(0, 1), (0, 1)] none 0).map ChunkStep.req) ∧
    (chunkSteps (min_interval 0) [(0, 1)] none 0).map ChunkStep.slept = [0] := by
  refine ⟨(C9_rate_limit_gated 2 [(0, 1), (0, 1)]).1 (by norm_num) (by decide), ?_⟩
  decide
